import Mathlib

/-!
Verification development for the TunnelForge tunnel server and client.

The definitions below are a shallow embedding of the TypeScript sources:
  * `src/server/src/tunnelServer.ts`   (TunnelServer)
  * `src/server/src/services/tunnelManager.ts` (TunnelManager)
  * `src/server/bin/connect.ts`        (client forwarder)
  * `src/server/src/api/index.ts`      (administrative API)
JavaScript `Map`s become association lists, JSON values become the `Json`
inductive, sockets become open/closed state tracked by explicit event
machines, and Node's single-threaded event loop becomes a step function over
event lists (each handler body runs atomically, which is what the event loop
guarantees).
-/

namespace TunnelForge

/-- JSON values as produced by `JSON.parse` / consumed by `JSON.stringify`;
the subset needed by the tunnel wire protocol (null, numbers, strings,
objects). -/
inductive Json where
  | null : Json
  | num : Int → Json
  | str : String → Json
  | obj : List (String × Json) → Json

/-- Header maps (JS `Record<string, string>`), as association lists. -/
abbrev Headers := List (String × String)

/-- The `TunnelRequest` message shape (src/server/src/tunnelServer.ts lines
13-20): the frame the server sends over a tunnel socket.  The constant
`type: "request"` discriminator is added by the encoder. -/
structure TunnelRequest where
  requestId : String
  method : String
  path : String
  headers : Headers
  body : Option String
deriving DecidableEq

/-- The `TunnelResponse` message shape (src/server/src/tunnelServer.ts lines
22-27 and src/server/bin/connect.ts lines 22-27). -/
structure TunnelResponse where
  requestId : String
  statusCode : Int
  headers : Headers
  body : Option String
deriving DecidableEq

/-- Field access on a parsed JSON object (`message.field` in JS). -/
def jsonField (j : Json) (k : String) : Option Json :=
  match j with
  | .obj fs => (fs.find? (fun p => p.1 = k)).map (fun p => p.2)
  | _ => none

/-- Serialization of a `TunnelRequest` performed by
`TunnelServer.handleTunnelRequest` (tunnelServer.ts lines 158-165 followed by
`JSON.stringify` at line 180): an object literal with the `type`
discriminator, request id, method, path, headers and optional body. -/
def encodeTunnelRequest (tr : TunnelRequest) : Json :=
  .obj [("type", .str "request"),
        ("requestId", .str tr.requestId),
        ("method", .str tr.method),
        ("path", .str tr.path),
        ("headers", .obj (tr.headers.map (fun p => (p.1, Json.str p.2)))),
        ("body", match tr.body with | some b => .str b | none => .null)]

/-- Reading a headers object field-by-field, as the client does when it
passes `message.headers` on to the local HTTP call: every value must be a
string. -/
def decodeHeaders : List (String × Json) → Option Headers
  | [] => some []
  | (k, Json.str v) :: rest => (decodeHeaders rest).map (fun hs => (k, v) :: hs)
  | _ :: _ => none

/-- Decoding done by the client message handler (connect.ts lines 98-117):
`JSON.parse` the frame, check `message.type === "request"`, then read
`requestId`, `method`, `path`, `headers` and `body` off the parsed object. -/
def decodeTunnelRequest (j : Json) : Option TunnelRequest :=
  match jsonField j "type" with
  | some (.str "request") =>
    match jsonField j "requestId", jsonField j "method",
          jsonField j "path", jsonField j "headers" with
    | some (.str rid), some (.str m), some (.str p), some hj =>
      match hj with
      | .obj hfs =>
        match decodeHeaders hfs with
        | some hs =>
          some { requestId := rid, method := m, path := p, headers := hs,
                 body := match jsonField j "body" with
                         | some (.str b) => some b
                         | _ => none }
        | none => none
      | _ => none
    | _, _, _, _ => none
  | _ => none

/-- The HTTP call the client forwarder issues to the local service
(connect.ts lines 55-61): `axios(\x7bmethod, url, headers, data\x7d)` with
`url = http://localhost:<port><path>`. -/
structure LocalCall where
  method : String
  url : String
  headers : Headers
  data : Option String
deriving DecidableEq

/-- The forwarded local HTTP call built by the client from a decoded tunnel
request (connect.ts lines 55-61). -/
def forwardedCall (localPort : Nat) (tr : TunnelRequest) : LocalCall :=
  { method := tr.method,
    url := "http://localhost:" ++ toString localPort ++ tr.path,
    headers := tr.headers,
    data := tr.body }

/-- One character of `JSON.stringify` string escaping. -/
def escapeChar (c : Char) : String :=
  if c = '"' then "\\\""
  else if c = '\\' then "\\\\"
  else if c = '\n' then "\\n"
  else if c = '\r' then "\\r"
  else if c = '\t' then "\\t"
  else String.singleton c

/-- `JSON.stringify` escaping of a string body. -/
def escapeString (s : String) : String :=
  String.join (s.data.map escapeChar)

mutual
/-- `JSON.stringify` on a `Json` value. -/
def jsonStringify : Json → String
  | .null => "null"
  | .num n => toString n
  | .str s => "\"" ++ escapeString s ++ "\""
  | .obj fs => "\x7b" ++ stringifyFields fs ++ "\x7d"

/-- `JSON.stringify` on the field list of an object. -/
def stringifyFields : List (String × Json) → String
  | [] => ""
  | [(k, v)] => "\"" ++ escapeString k ++ "\":" ++ jsonStringify v
  | (k, v) :: rest =>
      "\"" ++ escapeString k ++ "\":" ++ jsonStringify v ++ "," ++ stringifyFields rest
end

/-- Outcome of the client's HTTP call to the local service: either an axios
response (any status, since `validateStatus` accepts everything) or a thrown
error (connection refused, timeout, ...). -/
inductive LocalResult where
  | success (status : Int) (headers : Headers) (data : Json)
  | failure (message : String)

/-- The client forwarder `handleTunnelRequest` (connect.ts lines 49-87):
on success, build a `TunnelResponse` with the real status/headers and the
body stringified unless it is already a string; on failure, build a
synthetic 502 response.  Both carry the incoming request's `requestId`. -/
def clientHandleTunnelRequest (request : TunnelRequest) (result : LocalResult) :
    TunnelResponse :=
  match result with
  | .success st hs d =>
    { requestId := request.requestId,
      statusCode := st,
      headers := hs,
      body := some (match d with
                    | .str s => s
                    | other => jsonStringify other) }
  | .failure _ =>
    { requestId := request.requestId,
      statusCode := 502,
      headers := [("content-type", "application/json")],
      body := some (jsonStringify
        (.obj [("error", .str "Failed to forward request to local server")])) }

/-! ### TunnelManager (src/server/src/services/tunnelManager.ts) -/

/-- Per-tunnel statistics (src/server/src/types/tunnel.ts `TunnelStats`).
Timestamps are JS epoch-millisecond numbers, modeled as `Int`. -/
structure TunnelStats where
  requestCount : Nat
  lastRequestTime : Option Int
  createdAt : Int
  rateLimitRemaining : Int
  rateLimitReset : Int
deriving DecidableEq

/-- A registered tunnel (src/server/src/types/tunnel.ts `Tunnel`).  The
`socket : WebSocket` handle is external I/O state; its open/closed status is
tracked separately by the lifecycle event machine `LifeState` below. -/
structure Tunnel where
  id : String
  localPort : Nat
  stats : TunnelStats
deriving DecidableEq

/-- The `TunnelManager.tunnels : Map<string, Tunnel>` field, as an
association list in insertion order (JS `Map` iterates in insertion order;
`Map.set` of a fresh key appends). -/
abbrev TunnelMap := List Tunnel

/-- The statistics a fresh tunnel gets in `TunnelManager.createTunnel`
(tunnelManager.ts lines 14-20): zero requests, full rate budget of 100, and
a reset time 15 minutes from now. -/
def initialStats (now : Int) : TunnelStats :=
  { requestCount := 0,
    lastRequestTime := none,
    createdAt := now,
    rateLimitRemaining := 100,
    rateLimitReset := now + 15 * 60 * 1000 }

/-- `TunnelManager.createTunnel` (tunnelManager.ts lines 12-31).  The fresh
id produced by `generateId()` is passed in by the caller; the
`socket.on("close", ...)` registration is modeled by the `socketClosed`
event of the lifecycle machine. -/
def createTunnel (m : TunnelMap) (id : String) (localPort : Nat) (now : Int) :
    Tunnel × TunnelMap :=
  let t : Tunnel := { id := id, localPort := localPort, stats := initialStats now }
  (t, m ++ [t])

/-- `TunnelManager.getTunnel` (tunnelManager.ts lines 33-35): `Map.get`. -/
def getTunnel (m : TunnelMap) (id : String) : Option Tunnel :=
  m.find? (fun t => t.id = id)

/-- `TunnelManager.removeTunnel` (tunnelManager.ts lines 37-44): if the id
is registered, close its socket (an effect on the socket handle, tracked by
the lifecycle machine) and delete it from the map, returning the result of
`Map.delete` (true, since the entry was just found); otherwise return
false. -/
def removeTunnel (m : TunnelMap) (id : String) : Bool × TunnelMap :=
  match getTunnel m id with
  | some _ => (true, m.filter (fun t => t.id ≠ id))
  | none => (false, m)

/-- The per-tunnel stats update performed by
`TunnelManager.incrementRequestCount` (tunnelManager.ts lines 56-74): bump
the request count and last-request time; then either reset the rate budget
to 100 (when `now` is past the reset time, also pushing the reset time out
by 15 minutes) or decrement it, clamped at 0. -/
def updateStats (st : TunnelStats) (now : Int) : TunnelStats :=
  let st' := { st with requestCount := st.requestCount + 1,
                       lastRequestTime := some now }
  if now > st.rateLimitReset then
    { st' with rateLimitRemaining := 100,
               rateLimitReset := now + 15 * 60 * 1000 }
  else
    { st' with rateLimitRemaining := max 0 (st.rateLimitRemaining - 1) }

/-- `TunnelManager.incrementRequestCount` (tunnelManager.ts lines 56-74):
update the stats of the tunnel with the given id, if registered. -/
def incrementRequestCount (m : TunnelMap) (id : String) (now : Int) : TunnelMap :=
  m.map (fun t => if t.id = id then { t with stats := updateStats t.stats now } else t)

/-! ### Request routing (src/server/src/tunnelServer.ts) -/

/-- An incoming public HTTP request as seen by the Express handler: the
`Host` header, method, URL path, headers and body. -/
structure HttpReq where
  host : String
  method : String
  path : String
  headers : Headers
  body : Option String
deriving DecidableEq

/-- `TunnelServer.getTunnelIdFromRequest` (tunnelServer.ts lines 187-191):
match the URL path against `^\/([^\/]+)(\/.*)?$` and return the first
capture — the first path segment.  The request's hostname is not read. -/
def getTunnelIdFromRequest (req : HttpReq) : Option String :=
  match req.path.data with
  | '/' :: rest =>
    let seg := rest.takeWhile (fun c => c ≠ '/')
    if seg.isEmpty then none else some ⟨seg⟩
  | _ => none

/-- Whether the pattern occurs at the head of the character list. -/
def matchesAt : List Char → List Char → Bool
  | [], _ => true
  | _ :: _, [] => false
  | p :: ps, c :: cs => p = c && matchesAt ps cs

/-- Replace the first occurrence of the pattern by the empty string, as JS
`String.prototype.replace` with a string pattern does. -/
def replaceFirstChars (pat : List Char) : List Char → List Char
  | [] => []
  | c :: rest =>
    if matchesAt pat (c :: rest) then (c :: rest).drop pat.length
    else c :: replaceFirstChars pat rest

/-- JS `s.replace(pat, "")`: remove the first occurrence of `pat`. -/
def jsReplaceFirst (s pat : String) : String :=
  ⟨replaceFirstChars pat.data s.data⟩

/-- HTTP-visible outcome of `TunnelServer.handleTunnelRequest`. -/
inductive HttpOutcome where
  /-- 404 `Invalid tunnel URL`: no tunnel id in the path. -/
  | invalidUrl : HttpOutcome
  /-- 404 `Tunnel not found`: id not in the registry. -/
  | tunnelNotFound : HttpOutcome
  /-- 429 `Rate limit exceeded`. -/
  | rateLimited : HttpOutcome
  /-- Request dispatched to tunnel `tid` as frame `tr`; the HTTP response is
  left pending. -/
  | dispatched (tid : String) (tr : TunnelRequest) : HttpOutcome
deriving DecidableEq

/-- The full effect of one `TunnelServer.handleTunnelRequest` call: the HTTP
outcome, the updated tunnel map, the request id added to
`pendingResponses` (if any), and the frame written to a tunnel socket
(if any). -/
structure HandleResult where
  outcome : HttpOutcome
  tunnels : TunnelMap
  newPending : Option String
  sent : Option (String × TunnelRequest)
deriving DecidableEq

/-- `TunnelServer.handleTunnelRequest` (tunnelServer.ts lines 131-185):
extract the tunnel id from the URL path (404 if none), look it up (404 if
unregistered), reject with 429 when the rate budget is exhausted, otherwise
increment the request count, create a pending entry under a fresh
`uuidv4()` request id (passed in by the caller) and send the serialized
request frame — with the `/<tunnelId>` prefix removed from the path — over
the tunnel's socket. -/
def handleTunnelRequest (m : TunnelMap) (req : HttpReq) (requestId : String)
    (now : Int) : HandleResult :=
  match getTunnelIdFromRequest req with
  | none => { outcome := .invalidUrl, tunnels := m, newPending := none, sent := none }
  | some tid =>
    match getTunnel m tid with
    | none => { outcome := .tunnelNotFound, tunnels := m, newPending := none, sent := none }
    | some t =>
      if t.stats.rateLimitRemaining ≤ 0 then
        { outcome := .rateLimited, tunnels := m, newPending := none, sent := none }
      else
        let tr : TunnelRequest :=
          { requestId := requestId,
            method := req.method,
            path := jsReplaceFirst req.path ("/" ++ tid),
            headers := req.headers,
            body := req.body }
        { outcome := .dispatched tid tr,
          tunnels := incrementRequestCount m tid now,
          newPending := some requestId,
          sent := some (tid, tr) }

/-! ### Pending-request event machine (tunnelServer.ts lines 52-114, 167-180)

The server keeps one global `pendingResponses : Map<string, PendingResponse>`.
Three handler bodies touch it, each running atomically on the Node event
loop: the per-socket `message` handler (a matching response frame), the
`setTimeout` callback (30-second deadline), and the per-socket `close`
handler (tunnel teardown).  The machine below runs those handler bodies as
steps over an event list.  Completed writes to an HTTP response object are
logged in `written` as `(requestId, statusCode)` pairs so that
exactly-once completion is expressible. -/

/-- One entry of `pendingResponses`.  The tunnel id is ghost information:
the dispatching `handleTunnelRequest` call knows which tunnel it sent the
frame to, but the stored `PendingResponse` record does not carry it. -/
structure PendingEntry where
  requestId : String
  tunnelId : String
deriving DecidableEq

/-- State of the pending-response bookkeeping: the map entries plus the log
of completed HTTP response writes. -/
structure ServerState where
  pending : List PendingEntry
  written : List (String × Int)
deriving DecidableEq

/-- The empty initial state (constructor, tunnelServer.ts line 49). -/
def s0 : ServerState := { pending := [], written := [] }

/-- Events the pending map reacts to. -/
inductive SEvent where
  /-- `handleTunnelRequest` dispatches request `rid` to tunnel `tid` and
  stores a pending entry (tunnelServer.ts line 177). -/
  | dispatch (tid rid : String) : SEvent
  /-- A response frame with `requestId = rid` and status `st` arrives on
  some tunnel socket (tunnelServer.ts lines 76-95). -/
  | response (rid : String) (st : Int) : SEvent
  /-- The 30-second `setTimeout` callback for `rid` fires
  (tunnelServer.ts lines 168-174). -/
  | timerFire (rid : String) : SEvent
  /-- The control socket of tunnel `tid` closes
  (tunnelServer.ts lines 97-107). -/
  | socketClose (tid : String) : SEvent
deriving DecidableEq

/-- Whether `pendingResponses.get(rid)` finds an entry. -/
def hasPending (s : ServerState) (rid : String) : Bool :=
  s.pending.any (fun e => e.requestId = rid)

/-- Times the HTTP response for `rid` has been completed. -/
def writesFor (s : ServerState) (rid : String) : Nat :=
  (s.written.filter (fun p => p.1 = rid)).length

/-- One handler body.  `response`: if the id is pending, clear the timeout,
write the tunneled status and delete the entry, else do nothing.
`timerFire`: if the id is still pending, write 504 and delete the entry,
else do nothing.  `socketClose`: write 504 `Tunnel disconnected` to every
entry of the map and delete them all (the handler iterates the whole map;
the closing tunnel's id is ignored).  `dispatch`: insert the entry. -/
def serverStep (s : ServerState) : SEvent → ServerState
  | .dispatch tid rid =>
    { s with pending := { requestId := rid, tunnelId := tid } :: s.pending }
  | .response rid st =>
    if hasPending s rid then
      { pending := s.pending.filter (fun e => e.requestId ≠ rid),
        written := (rid, st) :: s.written }
    else s
  | .timerFire rid =>
    if hasPending s rid then
      { pending := s.pending.filter (fun e => e.requestId ≠ rid),
        written := (rid, 504) :: s.written }
    else s
  | .socketClose _ =>
    { pending := [],
      written := (s.pending.map (fun e => (e.requestId, (504 : Int)))) ++ s.written }

/-- Run a list of events from a state. -/
def runFrom (s : ServerState) : List SEvent → ServerState
  | [] => s
  | e :: es => runFrom (serverStep s e) es

/-- Whether a request id has ever been seen (pending now, or already
completed).  `uuidv4()` freshness means a dispatch never reuses such an
id. -/
def ridUsed (s : ServerState) (rid : String) : Bool :=
  hasPending s rid || s.written.any (fun p => p.1 = rid)

/-- Event admissibility: dispatches carry fresh uuids; the other events are
unconstrained. -/
def eventOk (s : ServerState) : SEvent → Bool
  | .dispatch _ rid => !(ridUsed s rid)
  | _ => true

/-- A trace is valid from `s` when every dispatch along it uses a fresh
request id. -/
def validFrom (s : ServerState) : List SEvent → Bool
  | [] => true
  | e :: es => eventOk s e && validFrom (serverStep s e) es

/-- Whether an event completes the pending request `rid`: a matching
response, its own timer firing, or any tunnel teardown (the close handler
clears the whole map). -/
def completionFor (rid : String) : SEvent → Bool
  | .response r _ => r = rid
  | .timerFire r => r = rid
  | .socketClose _ => true
  | .dispatch _ _ => false

/-! ### Tunnel lifecycle event machine (tunnelManager.ts lines 12-44,
src/server/src/api/index.ts lines 78-92)

`createTunnel` registers a `close` handler on the tunnel's socket that calls
`removeTunnel`, and `removeTunnel` closes the socket before deleting the
map entry; the administrative `DELETE /api/tunnels/:id` route also calls
`removeTunnel`.  The machine tracks the set of registered tunnel ids and
the set of tunnel ids whose control socket is open. -/

/-- Registered tunnel ids and open control sockets (sockets identified by
the tunnel they registered). -/
structure LifeState where
  tunnels : List String
  openSockets : List String
deriving DecidableEq

/-- Lifecycle events. -/
inductive TEvent where
  /-- A client connects and registers: `createTunnel` with a fresh id
  (tunnelServer.ts lines 54-73). -/
  | register (id : String) : TEvent
  /-- The tunnel's control socket closes; the transport closes the socket
  and the `close` handler runs `removeTunnel` (tunnelManager.ts
  lines 26-28). -/
  | socketClosed (id : String) : TEvent
  /-- Administrative removal via `DELETE /api/tunnels/:id`, which calls
  `removeTunnel`: close the socket and delete the entry if registered
  (api/index.ts lines 78-92, tunnelManager.ts lines 37-44). -/
  | adminRemove (id : String) : TEvent
deriving DecidableEq

/-- One lifecycle event handler body. -/
def lifeStep (s : LifeState) : TEvent → LifeState
  | .register id =>
    { tunnels := id :: s.tunnels, openSockets := id :: s.openSockets }
  | .socketClosed id =>
    { tunnels := s.tunnels.filter (fun t => t ≠ id),
      openSockets := s.openSockets.filter (fun t => t ≠ id) }
  | .adminRemove id =>
    if s.tunnels.contains id then
      { tunnels := s.tunnels.filter (fun t => t ≠ id),
        openSockets := s.openSockets.filter (fun t => t ≠ id) }
    else s

/-- Run lifecycle events from the empty registry. -/
def runLife (es : List TEvent) : LifeState :=
  es.foldl lifeStep { tunnels := [], openSockets := [] }

/-! ### Per-tunnel data-connection pool

Modelled from the spec: the repository contains no connection-pool
implementation (the pool tasks in the TLS implementation tracker are all
"To Do"); only the spec describes `addDataConnection` / `acquire` /
`release` / `removeDataConnection` (spec §4.2 "Tunnel Registry" pool
operations and §4.4 "Data Channel / Connection Pool Manager").  The
definitions below follow those words: a pool is the list of registered
connections of one tunnel, each with an in-use flag; acquiring returns an
available (not in-use) connection and marks it in-use; releasing clears the
flag; removal drops the connection from the pool. -/

/-- Modelled from the spec: one pooled data connection — opaque connection
id, unique within the tunnel, plus the in-use flag (spec §3 "Data
Connection"). -/
structure DataConnection where
  connId : String
  inUse : Bool
deriving DecidableEq

/-- Modelled from the spec: one tunnel's pool contents. -/
abbrev Pool := List DataConnection

/-- Modelled from the spec: `addDataConnection(tunnelId, conn)` registers a
fresh connection as available (spec §4.2, §4.4). -/
def addDataConnection (p : Pool) (cid : String) : Pool :=
  p ++ [{ connId := cid, inUse := false }]

/-- Modelled from the spec: `acquireDataConnection(tunnelId)` returns an
available connection marked in-use, or none (spec §4.2, §4.4
`acquire`). -/
def acquire (p : Pool) : Option String × Pool :=
  match p.find? (fun c => !c.inUse) with
  | some c =>
    (some c.connId,
     p.map (fun d => if d.connId = c.connId then { d with inUse := true } else d))
  | none => (none, p)

/-- Modelled from the spec: `releaseDataConnection(tunnelId, connId)`
returns the connection to available (spec §4.2, §4.4 `release`). -/
def release (p : Pool) (cid : String) : Pool :=
  p.map (fun d => if d.connId = cid then { d with inUse := false } else d)

/-- Modelled from the spec: `removeDataConnection(tunnelId, connId)` drops
the connection from the pool (spec §4.2). -/
def removeDataConnection (p : Pool) (cid : String) : Pool :=
  p.filter (fun d => d.connId ≠ cid)

/-- Pool operations, as events. -/
inductive PoolEvent where
  | add (cid : String) : PoolEvent
  | acquireConn : PoolEvent
  | releaseConn (cid : String) : PoolEvent
  | removeConn (cid : String) : PoolEvent
deriving DecidableEq

/-- One pool operation applied to the pool state. -/
def poolStep (p : Pool) : PoolEvent → Pool
  | .add cid => addDataConnection p cid
  | .acquireConn => (acquire p).2
  | .releaseConn cid => release p cid
  | .removeConn cid => removeDataConnection p cid

/-- Run pool operations from a pool. -/
def runPoolFrom (p : Pool) : List PoolEvent → Pool
  | [] => p
  | e :: es => runPoolFrom (poolStep p e) es

/-- Run pool operations from the empty pool. -/
def runPool (es : List PoolEvent) : Pool :=
  runPoolFrom [] es

/-- Validity of a pool trace from `p`: connection ids announced by `add`
are unique within the tunnel (spec §3 "Data Connection": connection ID
opaque, unique within tunnel). -/
def poolValidFrom (p : Pool) : List PoolEvent → Bool
  | [] => true
  | e :: es =>
    (match e with
     | .add cid => !(p.any (fun c => c.connId = cid))
     | _ => true) && poolValidFrom (poolStep p e) es

/-- Count of in-use connections in a pool. -/
def inUseCount (p : Pool) : Nat :=
  (p.filter (fun c => c.inUse)).length

/-- The pending-map invariant: request ids in the map are unique, every
request's HTTP response has been written at most once, and a request that
is still pending has not been written at all. -/
def PendInv (s : ServerState) : Prop :=
  (s.pending.map (fun e => e.requestId)).Nodup ∧
  ∀ rid, writesFor s rid ≤ 1 ∧ (hasPending s rid = true → writesFor s rid = 0)

/-! ### Concrete fixtures used by witnesses and counterexamples -/

/-- The round-trip scenario request: headers `a=1`, body `hello`. -/
def exampleRequest : TunnelRequest :=
  { requestId := "r1", method := "GET", path := "/", headers := [("a", "1")],
    body := some "hello" }

/-- A registry holding one tunnel with id `t1`. -/
def registryWithT1 : TunnelMap :=
  [{ id := "t1", localPort := 3000, stats := initialStats 0 }]

/-- A request whose Host header names subdomain `t1` but whose path first
segment is `ghost`. -/
def reqHostT1 : HttpReq :=
  { host := "t1.example.com", method := "GET", path := "/ghost", headers := [],
    body := none }

/-- A request whose Host header names subdomain `ghost` but whose path first
segment is `t1`. -/
def reqHostGhost : HttpReq :=
  { host := "ghost.example.com", method := "GET", path := "/t1/x", headers := [],
    body := none }

/-- A tunnel whose rate budget is exhausted. -/
def rateLimitedTunnel : Tunnel :=
  { id := "t1", localPort := 3000,
    stats := { requestCount := 100, lastRequestTime := some 50, createdAt := 0,
               rateLimitRemaining := 0, rateLimitReset := 900000 } }

/-- A registry holding only the rate-limited tunnel. -/
def registryRateLimited : TunnelMap := [rateLimitedTunnel]

/-- A plain request addressed to tunnel `t1` by path. -/
def reqT1 : HttpReq :=
  { host := "h", method := "GET", path := "/t1/x", headers := [], body := none }

/-! ## Theorems -/

/-- Decoding an encoded headers object recovers the original header list. -/
theorem decodeHeaders_encode (hs : Headers) :
    decodeHeaders (hs.map (fun p => (p.1, Json.str p.2))) = some hs := by
  induction hs with
  | nil => rfl
  | cons h t ih => simp [decodeHeaders, ih]

/-- C5: serializing a public HTTP request (method, path, headers, body)
into a framed request message on the server and decoding it on the client
yields identical method, path, headers and body; in particular the request
with headers `a=1` and body `hello` round-trips unchanged into the client's
forwarded local HTTP call. -/
theorem request_roundtrip :
    (∀ tr : TunnelRequest,
        decodeTunnelRequest (encodeTunnelRequest tr) = some tr) ∧
    ((decodeTunnelRequest (encodeTunnelRequest exampleRequest)).map
        (forwardedCall 8080) =
      some { method := "GET", url := "http://localhost:8080/",
             headers := [("a", "1")], data := some "hello" }) := by
  have huniv : ∀ tr : TunnelRequest,
      decodeTunnelRequest (encodeTunnelRequest tr) = some tr := by
    intro tr
    obtain ⟨rid, me, pa, hs, bo⟩ := tr
    cases bo <;>
      simp [decodeTunnelRequest, encodeTunnelRequest, jsonField,
            decodeHeaders_encode]
  refine ⟨huniv, ?_⟩
  rw [huniv exampleRequest]
  decide

/-- C9: for every framed request received by the client forwarder, a failed
local HTTP call produces a synthetic 502 response carrying the request's
own `requestId` (the data connection is not dropped — a response frame is
always produced), and in every case, success or failure, the response's
`requestId` equals the request's `requestId`. -/
theorem client_requestId_preserved :
    (∀ (req : TunnelRequest) (msg : String),
        clientHandleTunnelRequest req (.failure msg) =
          { requestId := req.requestId, statusCode := 502,
            headers := [("content-type", "application/json")],
            body := some (jsonStringify (.obj
              [("error",
                .str "Failed to forward request to local server")])) }) ∧
    (∀ (req : TunnelRequest) (result : LocalResult),
        (clientHandleTunnelRequest req result).requestId = req.requestId) := by
  constructor
  · intro req msg; rfl
  · intro req result; cases result <;> rfl

/-- `find?` on a filtered list is `none` when the filter rejects everything
the search would accept. -/
theorem find?_filter_of_incompat {α : Type} (p q : α → Bool) (l : List α)
    (h : ∀ a, q a = true → p a = false) : (l.filter p).find? q = none := by
  induction l with
  | nil => rfl
  | cons a t ih =>
    rw [List.filter_cons]
    by_cases hp : p a = true
    · rw [if_pos hp]
      have hq : ¬ q a = true := by
        intro hqa
        rw [h a hqa] at hp
        exact Bool.false_ne_true hp
      rw [List.find?_cons_of_neg _ hq]
      exact ih
    · rw [if_neg hp]
      exact ih

/-- `find?` on a filtered list agrees with `find?` on the original when the
filter keeps everything the search would accept. -/
theorem find?_filter_of_compat {α : Type} (p q : α → Bool) (l : List α)
    (h : ∀ a, q a = true → p a = true) : (l.filter p).find? q = l.find? q := by
  induction l with
  | nil => rfl
  | cons a t ih =>
    rw [List.filter_cons]
    by_cases hq : q a = true
    · rw [if_pos (h a hq), List.find?_cons_of_pos _ hq, List.find?_cons_of_pos _ hq]
    · by_cases hp : p a = true
      · rw [if_pos hp, List.find?_cons_of_neg _ hq, List.find?_cons_of_neg _ hq]
        exact ih
      · rw [if_neg hp, List.find?_cons_of_neg _ hq]
        exact ih

/-- Deleting key `id` leaves nothing with key `id` to be found. -/
theorem getTunnel_after_filter (m : TunnelMap) (id : String) :
    getTunnel (m.filter (fun t => t.id ≠ id)) id = none := by
  unfold getTunnel
  apply find?_filter_of_incompat
  intro a ha
  simp only [decide_eq_true_eq] at ha
  simp [ha]

/-- Deleting key `id` does not change lookups of other keys. -/
theorem getTunnel_filter_other (m : TunnelMap) (id id' : String) (h : id' ≠ id) :
    getTunnel (m.filter (fun t => t.id ≠ id)) id' = getTunnel m id' := by
  unfold getTunnel
  apply find?_filter_of_compat
  intro a ha
  simp only [decide_eq_true_eq] at ha
  simp [ha, h]

/-- C7: `removeTunnel` is idempotent: it returns true exactly when a tunnel
with that id was registered at the time of the call, a second call on the
same id is a no-op that returns false and leaves the map unchanged, and
every other tunnel's entry is untouched. -/
theorem removeTunnel_idempotent (m : TunnelMap) (id : String) :
    ((removeTunnel m id).1 = (getTunnel m id).isSome) ∧
    (removeTunnel (removeTunnel m id).2 id = (false, (removeTunnel m id).2)) ∧
    (∀ id', id' ≠ id →
        getTunnel (removeTunnel m id).2 id' = getTunnel m id') := by
  refine ⟨?_, ?_, ?_⟩
  · cases h : getTunnel m id <;> simp [removeTunnel, h]
  · cases h : getTunnel m id with
    | none =>
      have e1 : removeTunnel m id = (false, m) := by simp only [removeTunnel, h]
      rw [e1]
      exact e1
    | some t =>
      have e1 : removeTunnel m id = (true, m.filter (fun t => t.id ≠ id)) := by
        simp only [removeTunnel, h]
      rw [e1]
      simp only [removeTunnel, getTunnel_after_filter]
  · intro id' hne
    cases h : getTunnel m id with
    | none => simp [removeTunnel, h]
    | some t =>
      simp only [removeTunnel, h]
      exact getTunnel_filter_other m id id' hne

/-- Witness for C7 at a concrete registry. -/
theorem removeTunnel_idempotent_witness :
    getTunnel (removeTunnel registryWithT1 "t1").2 "t2" =
      getTunnel registryWithT1 "t2" :=
  (removeTunnel_idempotent registryWithT1 "t1").2.2 "t2" (by decide)

/-- C3 counterexample: routing ignores the request's hostname.  With only
tunnel `t1` registered, a request whose Host header is `t1.example.com` but
whose path starts with `/ghost` gets 404 (despite its hostname subdomain
naming a registered tunnel), while a request whose Host header is
`ghost.example.com` but whose path starts with `/t1` is dispatched to
`t1` — resolution uses the first path segment, not the hostname. -/
theorem routing_not_by_hostname :
    (handleTunnelRequest registryWithT1 reqHostT1 "r1" 5).outcome =
      .tunnelNotFound ∧
    (handleTunnelRequest registryWithT1 reqHostGhost "r1" 5).outcome =
      .dispatched "t1" { requestId := "r1", method := "GET", path := "/x",
                         headers := [], body := none } := by
  decide

/-- C3 (amended): `handleTunnelRequest` resolves the target tunnel from the
first segment of the request's URL path (the hostname plays no role), and
for every public request whose path resolves to no registered tunnel it
responds HTTP 404 and dispatches nothing to any tunnel: no pending entry is
created, no frame is sent, and the tunnel map (hence every request counter)
is unchanged. -/
theorem notfound_404_no_dispatch (m : TunnelMap) (req : HttpReq)
    (requestId : String) (now : Int) :
    (∀ h, handleTunnelRequest m { req with host := h } requestId now =
        handleTunnelRequest m req requestId now) ∧
    ((getTunnelIdFromRequest req).all
        (fun tid => (getTunnel m tid).isNone) = true →
      ((handleTunnelRequest m req requestId now).outcome = .invalidUrl ∨
       (handleTunnelRequest m req requestId now).outcome = .tunnelNotFound) ∧
      (handleTunnelRequest m req requestId now).tunnels = m ∧
      (handleTunnelRequest m req requestId now).newPending = none ∧
      (handleTunnelRequest m req requestId now).sent = none) := by
  constructor
  · intro h; rfl
  · intro hnone
    cases hg : getTunnelIdFromRequest req with
    | none => simp [handleTunnelRequest, hg]
    | some tid =>
      rw [hg] at hnone
      simp only [Option.all_some, Option.isNone_iff_eq_none] at hnone
      simp [handleTunnelRequest, hg, hnone]

/-- Witness for C3 (amended) at a concrete registry and request. -/
theorem notfound_404_no_dispatch_witness :
    ((handleTunnelRequest registryWithT1 reqHostT1 "r1" 5).outcome =
        .invalidUrl ∨
     (handleTunnelRequest registryWithT1 reqHostT1 "r1" 5).outcome =
        .tunnelNotFound) ∧
    (handleTunnelRequest registryWithT1 reqHostT1 "r1" 5).tunnels =
      registryWithT1 ∧
    (handleTunnelRequest registryWithT1 reqHostT1 "r1" 5).newPending = none ∧
    (handleTunnelRequest registryWithT1 reqHostT1 "r1" 5).sent = none :=
  (notfound_404_no_dispatch registryWithT1 reqHostT1 "r1" 5).2 (by decide)

/-- The stats update keeps the rate budget within bounds. -/
theorem updateStats_bounds (st : TunnelStats) (now : Int)
    (h0 : 0 ≤ st.rateLimitRemaining) (h1 : st.rateLimitRemaining ≤ 100) :
    0 ≤ (updateStats st now).rateLimitRemaining ∧
    (updateStats st now).rateLimitRemaining ≤ 100 := by
  unfold updateStats
  split
  · simp
  · refine ⟨?_, ?_⟩
    · exact le_max_left 0 _
    · exact max_le (by norm_num) (by omega)

/-- Rate budgets of states reachable from a fresh tunnel stay in bounds. -/
theorem foldl_updateStats_bounds (nows : List Int) (st : TunnelStats)
    (h0 : 0 ≤ st.rateLimitRemaining) (h1 : st.rateLimitRemaining ≤ 100) :
    0 ≤ (nows.foldl updateStats st).rateLimitRemaining ∧
    (nows.foldl updateStats st).rateLimitRemaining ≤ 100 := by
  induction nows generalizing st with
  | nil => exact ⟨h0, h1⟩
  | cons n rest ih =>
    have hb := updateStats_bounds st n h0 h1
    exact ih (updateStats st n) hb.1 hb.2

/-- C10: a request arriving when the tunnel's `rateLimitRemaining` is
exhausted is rejected with HTTP 429 and not forwarded (no pending entry, no
frame sent, registry unchanged); `incrementRequestCount` keeps the
remaining budget within `[0, 100]` in every state reachable from a fresh
tunnel; and once the 15-minute reset time has passed the budget is reset to
100. -/
theorem rate_limit_enforced :
    (∀ (m : TunnelMap) (req : HttpReq) (requestId : String) (now : Int)
        (tid : String) (t : Tunnel),
      getTunnelIdFromRequest req = some tid →
      getTunnel m tid = some t →
      t.stats.rateLimitRemaining ≤ 0 →
      handleTunnelRequest m req requestId now =
        { outcome := .rateLimited, tunnels := m, newPending := none,
          sent := none }) ∧
    (∀ (now0 : Int) (nows : List Int),
      0 ≤ (nows.foldl updateStats (initialStats now0)).rateLimitRemaining ∧
      (nows.foldl updateStats (initialStats now0)).rateLimitRemaining ≤ 100) ∧
    (∀ (st : TunnelStats) (now : Int), now > st.rateLimitReset →
      (updateStats st now).rateLimitRemaining = 100) := by
  refine ⟨?_, ?_, ?_⟩
  · intro m req requestId now tid t h1 h2 h3
    simp [handleTunnelRequest, h1, h2, h3]
  · intro now0 nows
    exact foldl_updateStats_bounds nows (initialStats now0) (by simp [initialStats]) (by simp [initialStats])
  · intro st now h
    simp [updateStats, h]

/-- Witness for C10 at a concrete exhausted tunnel. -/
theorem rate_limit_enforced_witness :
    handleTunnelRequest registryRateLimited reqT1 "r" 5 =
      { outcome := .rateLimited, tunnels := registryRateLimited,
        newPending := none, sent := none } :=
  rate_limit_enforced.1 registryRateLimited reqT1 "r" 5 "t1" rateLimitedTunnel
    (by decide) (by decide) (by decide)

/-- One lifecycle step preserves "every registered tunnel's socket is
open". -/
theorem lifeStep_inv (s : LifeState) (e : TEvent)
    (h : ∀ id, id ∈ s.tunnels → id ∈ s.openSockets) :
    ∀ id, id ∈ (lifeStep s e).tunnels → id ∈ (lifeStep s e).openSockets := by
  intro id hid
  cases e with
  | register i =>
    simp only [lifeStep, List.mem_cons] at hid ⊢
    rcases hid with h1 | h1
    · exact Or.inl h1
    · exact Or.inr (h id h1)
  | socketClosed i =>
    simp only [lifeStep, List.mem_filter] at hid ⊢
    exact ⟨h id hid.1, hid.2⟩
  | adminRemove i =>
    simp only [lifeStep] at hid ⊢
    by_cases hc : s.tunnels.contains i = true
    · rw [if_pos hc] at hid ⊢
      simp only [List.mem_filter] at hid ⊢
      exact ⟨h id hid.1, hid.2⟩
    · rw [if_neg hc] at hid ⊢
      exact h id hid

/-- The lifecycle invariant holds along any run. -/
theorem lifeFold_inv (es : List TEvent) (s : LifeState)
    (h : ∀ id, id ∈ s.tunnels → id ∈ s.openSockets) :
    ∀ id, id ∈ (es.foldl lifeStep s).tunnels →
        id ∈ (es.foldl lifeStep s).openSockets := by
  induction es generalizing s with
  | nil => exact h
  | cons e rest ih => exact ih (lifeStep s e) (lifeStep_inv s e h)

/-- C8: a tunnel is registered only while its control connection is open:
in every state reachable from the empty registry, each registered tunnel id
has an open control socket; closing a registered tunnel's socket removes
the tunnel from the registry (the `close` handler installed by
`createTunnel` runs `removeTunnel`); and removing a registered tunnel via
the administrative path closes its socket.  Handler bodies run atomically
on the Node event loop, so no observable state has a registered tunnel
whose control connection is closed. -/
theorem tunnel_iff_socket_open (es : List TEvent) :
    (∀ id, id ∈ (runLife es).tunnels → id ∈ (runLife es).openSockets) ∧
    (∀ (s : LifeState) (id : String),
        id ∉ (lifeStep s (.socketClosed id)).tunnels) ∧
    (∀ (s : LifeState) (id : String), id ∈ s.tunnels →
        id ∉ (lifeStep s (.adminRemove id)).openSockets) := by
  refine ⟨?_, ?_, ?_⟩
  · exact lifeFold_inv es { tunnels := [], openSockets := [] }
      (fun id h => absurd h (List.not_mem_nil id))
  · intro s id
    simp [lifeStep, List.mem_filter]
  · intro s id hmem
    simp [lifeStep, hmem, List.mem_filter]

/-- Witness for C8 after a concrete registration. -/
theorem tunnel_iff_socket_open_witness :
    "t1" ∈ (runLife [TEvent.register "t1"]).openSockets :=
  (tunnel_iff_socket_open [TEvent.register "t1"]).1 "t1" (by decide)

/-- Acquiring does not change the connection ids of the pool. -/
theorem acquire_ids (p : Pool) :
    (acquire p).2.map (fun c => c.connId) = p.map (fun c => c.connId) := by
  unfold acquire
  cases h : p.find? (fun c => !c.inUse) with
  | none => rfl
  | some c =>
    simp only [List.map_map]
    apply List.map_congr_left
    intro a _
    by_cases ha : a.connId = c.connId <;> simp [ha]

/-- Releasing does not change the connection ids of the pool. -/
theorem release_ids (p : Pool) (cid : String) :
    (release p cid).map (fun c => c.connId) = p.map (fun c => c.connId) := by
  unfold release
  simp only [List.map_map]
  apply List.map_congr_left
  intro a _
  by_cases ha : a.connId = cid <;> simp [ha]

/-- Along a valid pool trace, connection ids stay pairwise distinct. -/
theorem poolValid_nodup (es : List PoolEvent) (p : Pool)
    (h : (p.map (fun c => c.connId)).Nodup)
    (hv : poolValidFrom p es = true) :
    ((runPoolFrom p es).map (fun c => c.connId)).Nodup := by
  induction es generalizing p with
  | nil => exact h
  | cons e rest ih =>
    cases e with
    | add cid =>
      have hv' : ((!(p.any (fun c => c.connId = cid))) &&
          poolValidFrom (poolStep p (PoolEvent.add cid)) rest) = true := hv
      rw [Bool.and_eq_true] at hv'
      obtain ⟨hok, hrest⟩ := hv'
      refine ih (poolStep p (PoolEvent.add cid)) ?_ hrest
      have hok' : p.any (fun c => c.connId = cid) = false := by simpa using hok
      have hfresh : cid ∉ p.map (fun c => c.connId) := by
        intro hc
        rw [List.mem_map] at hc
        obtain ⟨x, hx, hxr⟩ := hc
        have h2 : p.any (fun c => c.connId = cid) = true :=
          List.any_eq_true.mpr ⟨x, hx, by simp [hxr]⟩
        rw [h2] at hok'
        exact absurd hok' (by decide)
      simp only [poolStep, addDataConnection, List.map_append]
      simp [List.nodup_append, hfresh, h]
    | acquireConn =>
      have hv' : (true && poolValidFrom (poolStep p PoolEvent.acquireConn) rest)
          = true := hv
      rw [Bool.true_and] at hv'
      refine ih _ ?_ hv'
      simpa [poolStep, acquire_ids] using h
    | releaseConn cid =>
      have hv' : (true &&
          poolValidFrom (poolStep p (PoolEvent.releaseConn cid)) rest) = true := hv
      rw [Bool.true_and] at hv'
      refine ih _ ?_ hv'
      simpa [poolStep, release_ids] using h
    | removeConn cid =>
      have hv' : (true &&
          poolValidFrom (poolStep p (PoolEvent.removeConn cid)) rest) = true := hv
      rw [Bool.true_and] at hv'
      refine ih _ ?_ hv'
      simp only [poolStep, removeDataConnection]
      exact h.sublist ((List.filter_sublist _).map _)

/-- C6: for all sequences of pool operations, the count of in-use
connections never exceeds the count of registered connections, connection
ids stay pairwise distinct, and `acquire` never returns a connection that
was already marked in-use: whenever it returns an id, the pool holds a
connection with that id whose in-use flag was false. -/
theorem pool_acquire_invariant (es : List PoolEvent)
    (hv : poolValidFrom [] es = true) :
    inUseCount (runPool es) ≤ (runPool es).length ∧
    ((runPool es).map (fun c => c.connId)).Nodup ∧
    (∀ cid, (acquire (runPool es)).1 = some cid →
      ∃ c, c ∈ runPool es ∧ c.connId = cid ∧ c.inUse = false) := by
  refine ⟨List.length_filter_le _ _, poolValid_nodup es [] (by simp) hv, ?_⟩
  intro cid hc
  unfold acquire at hc
  cases h : (runPool es).find? (fun c => !c.inUse) with
  | none => rw [h] at hc; exact absurd hc (by simp)
  | some c =>
    rw [h] at hc
    simp only [Option.some.injEq] at hc
    refine ⟨c, List.mem_of_find?_eq_some h, hc, ?_⟩
    have hf := List.find?_some h
    simpa using hf

/-- Witness for C6 on a concrete operation sequence. -/
theorem pool_acquire_invariant_witness :
    inUseCount (runPool [PoolEvent.add "c1", PoolEvent.acquireConn]) ≤
      (runPool [PoolEvent.add "c1", PoolEvent.acquireConn]).length :=
  (pool_acquire_invariant [PoolEvent.add "c1", PoolEvent.acquireConn]
    (by decide)).1

/-- Deleting all entries of a request id leaves none of them to find. -/
theorem any_filter_ne_self (l : List PendingEntry) (rid : String) :
    (l.filter (fun e => e.requestId ≠ rid)).any
      (fun e => e.requestId = rid) = false := by
  induction l with
  | nil => rfl
  | cons e t ih =>
    rw [List.filter_cons]
    by_cases h : e.requestId = rid
    · rw [if_neg (by simp [h])]
      exact ih
    · rw [if_pos (by simp [h]), List.any_cons, ih]
      simp [h]

/-- Deleting the entries of one request id does not affect whether another
id is pending. -/
theorem any_filter_ne_other (l : List PendingEntry) (rid r : String)
    (h : r ≠ rid) :
    (l.filter (fun e => e.requestId ≠ rid)).any (fun e => e.requestId = r) =
      l.any (fun e => e.requestId = r) := by
  induction l with
  | nil => rfl
  | cons e t ih =>
    rw [List.filter_cons]
    by_cases he : e.requestId = rid
    · rw [if_neg (by simp [he]), ih, List.any_cons,
          decide_eq_false (fun hc : e.requestId = r => h (hc.symm.trans he))]
      simp
    · rw [if_pos (by simp [he]), List.any_cons, List.any_cons, ih]

/-- A write log holding no entry for a request contributes no writes. -/
theorem wcount_zero_of_any_false (w : List (String × Int)) (r : String)
    (h : w.any (fun p => p.1 = r) = false) :
    (w.filter (fun p => p.1 = r)).length = 0 := by
  induction w with
  | nil => rfl
  | cons a t ih =>
    rw [List.any_cons, Bool.or_eq_false_iff] at h
    rw [List.filter_cons, if_neg (by simp [h.1])]
    exact ih h.2

/-- A pending map holding no entry for a request contributes no
completions on teardown. -/
theorem pcount_zero_of_any_false (l : List PendingEntry) (r : String)
    (h : l.any (fun e => e.requestId = r) = false) :
    (l.filter (fun e => e.requestId = r)).length = 0 := by
  induction l with
  | nil => rfl
  | cons a t ih =>
    rw [List.any_cons, Bool.or_eq_false_iff] at h
    rw [List.filter_cons, if_neg (by simp [h.1])]
    exact ih h.2

/-- With distinct request ids, a pending request has exactly one map
entry. -/
theorem pcount_one_of_nodup (l : List PendingEntry) (r : String)
    (hn : (l.map (fun e => e.requestId)).Nodup)
    (h : l.any (fun e => e.requestId = r) = true) :
    (l.filter (fun e => e.requestId = r)).length = 1 := by
  induction l with
  | nil => exact absurd h (by simp)
  | cons e t ih =>
    rw [List.map_cons, List.nodup_cons] at hn
    by_cases he : e.requestId = r
    · have htail : t.any (fun x => x.requestId = r) = false := by
        cases hta : t.any (fun x => x.requestId = r)
        · rfl
        · exfalso
          rw [List.any_eq_true] at hta
          obtain ⟨x, hx, hxr⟩ := hta
          simp only [decide_eq_true_eq] at hxr
          apply hn.1
          rw [he, ← hxr]
          exact List.mem_map_of_mem _ hx
      rw [List.filter_cons, if_pos (by simp [he]), List.length_cons,
          pcount_zero_of_any_false t r htail]
    · rw [List.any_cons] at h
      have ht : t.any (fun x => x.requestId = r) = true := by
        simpa [he] using h
      rw [List.filter_cons, if_neg (by simp [he])]
      exact ih hn.2 ht

/-- Write count contributed by a teardown: one per currently pending entry
with the given request id. -/
theorem count_written_close (l : List PendingEntry) (w : List (String × Int))
    (r : String) :
    (((l.map (fun e => (e.requestId, (504 : Int)))) ++ w).filter
        (fun p => p.1 = r)).length =
      (l.filter (fun e => e.requestId = r)).length +
        (w.filter (fun p => p.1 = r)).length := by
  induction l with
  | nil => simp
  | cons e t ih =>
    rw [List.map_cons, List.cons_append, List.filter_cons]
    by_cases he : e.requestId = r
    · rw [if_pos (by simp [he]), List.length_cons, ih,
          List.filter_cons, if_pos (by simp [he]), List.length_cons]
      omega
    · rw [if_neg (by simp [he]), ih, List.filter_cons, if_neg (by simp [he])]

/-- The pending map of the empty server state: nothing is pending. -/
theorem pendInv_s0 : PendInv s0 := by
  constructor
  · simp [s0]
  · intro r
    refine ⟨by simp [s0, writesFor], fun hcon => ?_⟩
    simp [s0, hasPending] at hcon

/-- A dispatch leaves the write log unchanged. -/
theorem writesFor_step_dispatch (s : ServerState) (tid r rid : String) :
    writesFor (serverStep s (.dispatch tid r)) rid = writesFor s rid := rfl

/-- A response for a different pending request does not write this one. -/
theorem writesFor_step_response (s : ServerState) (r rid : String) (st : Int)
    (hr : hasPending s r = true) (hrne : r ≠ rid) :
    writesFor (serverStep s (.response r st)) rid = writesFor s rid := by
  simp only [serverStep]
  rw [if_pos hr]
  show (((r, st) :: s.written).filter (fun p => p.1 = rid)).length = _
  rw [List.filter_cons, if_neg (by simp only [decide_eq_true_eq]; exact hrne)]
  rfl

/-- A timer firing for a different pending request does not write this
one. -/
theorem writesFor_step_timer (s : ServerState) (r rid : String)
    (hr : hasPending s r = true) (hrne : r ≠ rid) :
    writesFor (serverStep s (.timerFire r)) rid = writesFor s rid := by
  simp only [serverStep]
  rw [if_pos hr]
  show (((r, (504 : Int)) :: s.written).filter (fun p => p.1 = rid)).length = _
  rw [List.filter_cons, if_neg (by simp only [decide_eq_true_eq]; exact hrne)]
  rfl

/-- A matching response for a pending request writes it exactly once
more. -/
theorem writesFor_step_response_self (s : ServerState) (rid : String)
    (st : Int) (hr : hasPending s rid = true) :
    writesFor (serverStep s (.response rid st)) rid = writesFor s rid + 1 := by
  simp only [serverStep]
  rw [if_pos hr]
  show (((rid, st) :: s.written).filter (fun p => p.1 = rid)).length = _
  rw [List.filter_cons, if_pos (by simp), List.length_cons]
  rfl

/-- The timer firing for a pending request writes it exactly once more. -/
theorem writesFor_step_timer_self (s : ServerState) (rid : String)
    (hr : hasPending s rid = true) :
    writesFor (serverStep s (.timerFire rid)) rid = writesFor s rid + 1 := by
  simp only [serverStep]
  rw [if_pos hr]
  show (((rid, (504 : Int)) :: s.written).filter (fun p => p.1 = rid)).length = _
  rw [List.filter_cons, if_pos (by simp), List.length_cons]
  rfl

/-- Teardown writes each request once per pending entry it holds. -/
theorem writesFor_step_close (s : ServerState) (tid rid : String) :
    writesFor (serverStep s (.socketClose tid)) rid =
      (s.pending.filter (fun e => e.requestId = rid)).length +
        writesFor s rid := by
  show (((s.pending.map (fun e => (e.requestId, (504 : Int)))) ++
      s.written).filter (fun p => p.1 = rid)).length = _
  exact count_written_close s.pending s.written rid

/-- An event that does not complete a pending request leaves it pending. -/
theorem hasPending_step_of_not_completion (s : ServerState) (e : SEvent)
    (rid : String) (hp : hasPending s rid = true)
    (hce : completionFor rid e = false) :
    hasPending (serverStep s e) rid = true := by
  cases e with
  | dispatch tid r =>
    show (({ requestId := r, tunnelId := tid } : PendingEntry) ::
        s.pending).any (fun e => e.requestId = rid) = true
    rw [List.any_cons]
    rw [hasPending] at hp
    simp [hp]
  | response r st =>
    have hrne : r ≠ rid := by
      have h1 : decide (r = rid) = false := hce
      simpa using h1
    by_cases hr : hasPending s r = true
    · simp only [serverStep]
      rw [if_pos hr]
      show (s.pending.filter (fun e => e.requestId ≠ r)).any
          (fun e => e.requestId = rid) = true
      rw [any_filter_ne_other s.pending r rid (Ne.symm hrne)]
      exact hp
    · simp only [serverStep]
      rw [if_neg hr]
      exact hp
  | timerFire r =>
    have hrne : r ≠ rid := by
      have h1 : decide (r = rid) = false := hce
      simpa using h1
    by_cases hr : hasPending s r = true
    · simp only [serverStep]
      rw [if_pos hr]
      show (s.pending.filter (fun e => e.requestId ≠ r)).any
          (fun e => e.requestId = rid) = true
      rw [any_filter_ne_other s.pending r rid (Ne.symm hrne)]
      exact hp
    · simp only [serverStep]
      rw [if_neg hr]
      exact hp
  | socketClose t =>
    have h1 : (true : Bool) = false := hce
    exact absurd h1 (by decide)

/-- Completing a pending request preserves the pending-map invariant. -/
theorem pendInv_complete (s : ServerState) (rid : String) (st : Int)
    (h : PendInv s) (hp : hasPending s rid = true) :
    PendInv { pending := s.pending.filter (fun e => e.requestId ≠ rid),
              written := (rid, st) :: s.written } := by
  obtain ⟨hn, hw⟩ := h
  constructor
  · exact hn.sublist ((List.filter_sublist _).map _)
  · intro r
    by_cases hr : r = rid
    · subst hr
      have h0 : writesFor s r = 0 := (hw r).2 hp
      have h0' : (s.written.filter (fun p => p.1 = r)).length = 0 := h0
      constructor
      · show (((r, st) :: s.written).filter (fun p => p.1 = r)).length ≤ 1
        rw [List.filter_cons, if_pos (by simp), List.length_cons]
        omega
      · intro hcon
        have hco : (s.pending.filter (fun e => e.requestId ≠ r)).any
            (fun e => e.requestId = r) = true := hcon
        rw [any_filter_ne_self] at hco
        exact absurd hco (by decide)
    · have heq : (((rid, st) :: s.written).filter
          (fun p => p.1 = r)).length = writesFor s r := by
        rw [List.filter_cons,
            if_neg (by simp only [decide_eq_true_eq]; exact fun hc => hr hc.symm)]
        rfl
      constructor
      · show (((rid, st) :: s.written).filter (fun p => p.1 = r)).length ≤ 1
        rw [heq]
        exact (hw r).1
      · intro hcon
        show (((rid, st) :: s.written).filter (fun p => p.1 = r)).length = 0
        rw [heq]
        apply (hw r).2
        have hco : (s.pending.filter (fun e => e.requestId ≠ rid)).any
            (fun e => e.requestId = r) = true := hcon
        rw [any_filter_ne_other s.pending rid r hr] at hco
        exact hco

/-- Every admissible event preserves the pending-map invariant. -/
theorem pendInv_step (s : ServerState) (e : SEvent)
    (h : PendInv s) (he : eventOk s e = true) : PendInv (serverStep s e) := by
  obtain ⟨hn, hw⟩ := h
  cases e with
  | dispatch tid rid =>
    have hused : ridUsed s rid = false := by
      have h1 : (!(ridUsed s rid)) = true := he
      simpa using h1
    rw [ridUsed, Bool.or_eq_false_iff] at hused
    obtain ⟨hup, huw⟩ := hused
    constructor
    · show ((({ requestId := rid, tunnelId := tid } : PendingEntry) ::
          s.pending).map (fun e => e.requestId)).Nodup
      rw [List.map_cons, List.nodup_cons]
      refine ⟨?_, hn⟩
      intro hc
      rw [List.mem_map] at hc
      obtain ⟨x, hx, hxr⟩ := hc
      have h2 : s.pending.any (fun e => e.requestId = rid) = true :=
        List.any_eq_true.mpr ⟨x, hx, by simp [hxr]⟩
      have h3 : s.pending.any (fun e => e.requestId = rid) = false := hup
      rw [h2] at h3
      exact absurd h3 (by decide)
    · intro r
      rw [writesFor_step_dispatch]
      refine ⟨(hw r).1, ?_⟩
      intro hcon
      by_cases hr : r = rid
      · subst hr
        exact wcount_zero_of_any_false s.written r huw
      · apply (hw r).2
        have hco : (({ requestId := rid, tunnelId := tid } : PendingEntry) ::
            s.pending).any (fun e => e.requestId = r) = true := hcon
        rw [List.any_cons,
            decide_eq_false (fun hc : rid = r => hr hc.symm),
            Bool.false_or] at hco
        exact hco
  | response rid st =>
    by_cases hr : hasPending s rid = true
    · have hsp : serverStep s (.response rid st) =
          { pending := s.pending.filter (fun e => e.requestId ≠ rid),
            written := (rid, st) :: s.written } := by
        simp only [serverStep]
        rw [if_pos hr]
      rw [hsp]
      exact pendInv_complete s rid st ⟨hn, hw⟩ hr
    · have hsp : serverStep s (.response rid st) = s := by
        simp only [serverStep]
        rw [if_neg hr]
      rw [hsp]
      exact ⟨hn, hw⟩
  | timerFire rid =>
    by_cases hr : hasPending s rid = true
    · have hsp : serverStep s (.timerFire rid) =
          { pending := s.pending.filter (fun e => e.requestId ≠ rid),
            written := (rid, 504) :: s.written } := by
        simp only [serverStep]
        rw [if_pos hr]
      rw [hsp]
      exact pendInv_complete s rid 504 ⟨hn, hw⟩ hr
    · have hsp : serverStep s (.timerFire rid) = s := by
        simp only [serverStep]
        rw [if_neg hr]
      rw [hsp]
      exact ⟨hn, hw⟩
  | socketClose tid =>
    constructor
    · show (([] : List PendingEntry).map (fun e => e.requestId)).Nodup
      simp
    · intro r
      rw [writesFor_step_close]
      constructor
      · by_cases hpr : hasPending s r = true
        · have h1 := pcount_one_of_nodup s.pending r hn hpr
          have h0 := (hw r).2 hpr
          rw [h1, h0]
        · rw [Bool.not_eq_true] at hpr
          rw [pcount_zero_of_any_false s.pending r hpr]
          simpa using (hw r).1
      · intro hcon
        have hco : (([] : List PendingEntry)).any
            (fun e => e.requestId = r) = true := hcon
        simp at hco

/-- The pending-map invariant holds along every valid run. -/
theorem pendInv_run (es : List SEvent) (s : ServerState)
    (h : PendInv s) (hv : validFrom s es = true) : PendInv (runFrom s es) := by
  induction es generalizing s with
  | nil => exact h
  | cons e rest ih =>
    have hv' : (eventOk s e && validFrom (serverStep s e) rest) = true := hv
    rw [Bool.and_eq_true] at hv'
    exact ih (serverStep s e) (pendInv_step s e h hv'.1) hv'.2

/-- Once a request has been written, no later valid events write it
again. -/
theorem writes_one_stable (es : List SEvent) (s : ServerState) (rid : String)
    (h : PendInv s) (h1 : writesFor s rid = 1) (hv : validFrom s es = true) :
    writesFor (runFrom s es) rid = 1 := by
  induction es generalizing s with
  | nil => exact h1
  | cons e rest ih =>
    have hv' : (eventOk s e && validFrom (serverStep s e) rest) = true := hv
    rw [Bool.and_eq_true] at hv'
    have hnp : hasPending s rid = false := by
      cases hb : hasPending s rid
      · rfl
      · have h0 := (h.2 rid).2 hb
        rw [h0] at h1
        exact absurd h1 (by decide)
    have hstep : writesFor (serverStep s e) rid = 1 := by
      cases e with
      | dispatch tid r => exact h1
      | response r st =>
        by_cases hr : hasPending s r = true
        · have hrne : r ≠ rid := by
            intro hq
            subst hq
            rw [hr] at hnp
            exact absurd hnp (by decide)
          rw [writesFor_step_response s r rid st hr hrne]
          exact h1
        · have hno : serverStep s (.response r st) = s := by
            simp only [serverStep]
            rw [if_neg hr]
          rw [hno]
          exact h1
      | timerFire r =>
        by_cases hr : hasPending s r = true
        · have hrne : r ≠ rid := by
            intro hq
            subst hq
            rw [hr] at hnp
            exact absurd hnp (by decide)
          rw [writesFor_step_timer s r rid hr hrne]
          exact h1
        · have hno : serverStep s (.timerFire r) = s := by
            simp only [serverStep]
            rw [if_neg hr]
          rw [hno]
          exact h1
      | socketClose tid =>
        rw [writesFor_step_close, pcount_zero_of_any_false s.pending rid hnp]
        simpa using h1
    exact ih (serverStep s e) (pendInv_step s e h hv'.1) hstep hv'.2

/-- A pending request that meets a completion event along a valid trace
ends up written exactly once. -/
theorem completes_writes_one (es : List SEvent) (s : ServerState)
    (rid : String) (h : PendInv s) (hp : hasPending s rid = true)
    (hv : validFrom s es = true) (hc : es.any (completionFor rid) = true) :
    writesFor (runFrom s es) rid = 1 := by
  induction es generalizing s with
  | nil => simp at hc
  | cons e rest ih =>
    have hv' : (eventOk s e && validFrom (serverStep s e) rest) = true := hv
    rw [Bool.and_eq_true] at hv'
    have h0 : writesFor s rid = 0 := (h.2 rid).2 hp
    by_cases hce : completionFor rid e = true
    · have hstep1 : writesFor (serverStep s e) rid = 1 := by
        cases e with
        | dispatch tid r =>
          have h1 : (false : Bool) = true := hce
          exact absurd h1 (by decide)
        | response r st =>
          have hr : r = rid := by
            have h1 : decide (r = rid) = true := hce
            simpa using h1
          subst hr
          rw [writesFor_step_response_self s r st hp, h0]
        | timerFire r =>
          have hr : r = rid := by
            have h1 : decide (r = rid) = true := hce
            simpa using h1
          subst hr
          rw [writesFor_step_timer_self s r hp, h0]
        | socketClose tid =>
          rw [writesFor_step_close, pcount_one_of_nodup s.pending rid h.1 hp,
              h0]
      exact writes_one_stable rest (serverStep s e) rid
        (pendInv_step s e h hv'.1) hstep1 hv'.2
    · have hceb : completionFor rid e = false := by
        cases hh : completionFor rid e
        · rfl
        · exact absurd hh hce
      have hpend := hasPending_step_of_not_completion s e rid hp hceb
      have hcrest : rest.any (completionFor rid) = true := by
        have h2 : (completionFor rid e || rest.any (completionFor rid))
            = true := hc
        rw [hceb] at h2
        simpa using h2
      exact ih (serverStep s e) (pendInv_step s e h hv'.1) hpend hv'.2 hcrest

/-- A pending request persists across events that do not complete it. -/
theorem pending_persists (es : List SEvent) (s : ServerState) (rid : String)
    (h : PendInv s) (hp : hasPending s rid = true)
    (hv : validFrom s es = true)
    (hnc : es.any (completionFor rid) = false) :
    hasPending (runFrom s es) rid = true ∧ PendInv (runFrom s es) := by
  induction es generalizing s with
  | nil => exact ⟨hp, h⟩
  | cons e rest ih =>
    have hv' : (eventOk s e && validFrom (serverStep s e) rest) = true := hv
    rw [Bool.and_eq_true] at hv'
    have hnc' : (completionFor rid e || rest.any (completionFor rid))
        = false := hnc
    rw [Bool.or_eq_false_iff] at hnc'
    exact ih (serverStep s e) (pendInv_step s e h hv'.1)
      (hasPending_step_of_not_completion s e rid hp hnc'.1) hv'.2 hnc'.2

/-- Runs decompose over appends of event lists. -/
theorem runFrom_append (s : ServerState) (l1 l2 : List SEvent) :
    runFrom s (l1 ++ l2) = runFrom (runFrom s l1) l2 := by
  induction l1 generalizing s with
  | nil => rfl
  | cons e t ih => exact ih (serverStep s e)

/-- Validity decomposes over appends of event lists. -/
theorem validFrom_append (s : ServerState) (l1 l2 : List SEvent) :
    validFrom s (l1 ++ l2) =
      (validFrom s l1 && validFrom (runFrom s l1) l2) := by
  induction l1 generalizing s with
  | nil => simp [validFrom, runFrom]
  | cons e t ih =>
    show (eventOk s e && validFrom (serverStep s e) (t ++ l2)) = _
    rw [ih (serverStep s e)]
    show _ = ((eventOk s e && validFrom (serverStep s e) t) &&
        validFrom (runFrom (serverStep s e) t) l2)
    rw [Bool.and_assoc]

/-- The timer handler on a still-pending request: write 504 and delete the
entry. -/
theorem serverStep_timer_pending (s : ServerState) (rid : String)
    (hp : hasPending s rid = true) :
    serverStep s (.timerFire rid) =
      { pending := s.pending.filter (fun e => e.requestId ≠ rid),
        written := (rid, 504) :: s.written } := by
  simp only [serverStep]
  rw [if_pos hp]

/-- C1: exactly-once completion of pending requests.  Along every valid
event trace (dispatches carry fresh uuids): request ids in the pending map
are pairwise distinct — and since every valid trace's prefixes are valid,
this holds at any time; no request's HTTP response is ever written more
than once; a dispatched request that is followed by a completion event (a
matching response frame, its 30-second timer firing, or a tunnel teardown)
is written exactly once — the Node runtime guarantees such an event occurs,
because the armed timer fires unless the entry was completed first; and a
timer firing after the entry has already been removed changes nothing. -/
theorem pending_exactly_once (es es₁ es₂ : List SEvent) (tid rid : String)
    (hv : validFrom s0 es = true) :
    ((runFrom s0 es).pending.map (fun e => e.requestId)).Nodup ∧
    (∀ r, writesFor (runFrom s0 es) r ≤ 1) ∧
    (es = es₁ ++ SEvent.dispatch tid rid :: es₂ →
      es₂.any (completionFor rid) = true →
      writesFor (runFrom s0 es) rid = 1) ∧
    (∀ (s : ServerState) (r : String), hasPending s r = false →
      serverStep s (SEvent.timerFire r) = s) := by
  have hInvEnd := pendInv_run es s0 pendInv_s0 hv
  refine ⟨hInvEnd.1, fun r => (hInvEnd.2 r).1, ?_, ?_⟩
  · intro heq hcomp
    subst heq
    rw [runFrom_append]
    rw [validFrom_append, Bool.and_eq_true] at hv
    obtain ⟨hv1, hv2⟩ := hv
    have hv2' : (eventOk (runFrom s0 es₁) (SEvent.dispatch tid rid) &&
        validFrom (serverStep (runFrom s0 es₁) (SEvent.dispatch tid rid))
          es₂) = true := hv2
    rw [Bool.and_eq_true] at hv2'
    obtain ⟨hok, hv3⟩ := hv2'
    have hInv1 : PendInv (runFrom s0 es₁) := pendInv_run es₁ s0 pendInv_s0 hv1
    have hInv2 : PendInv (serverStep (runFrom s0 es₁)
        (SEvent.dispatch tid rid)) := pendInv_step _ _ hInv1 hok
    have hpend : hasPending (serverStep (runFrom s0 es₁)
        (SEvent.dispatch tid rid)) rid = true := by
      show (({ requestId := rid, tunnelId := tid } : PendingEntry) ::
          (runFrom s0 es₁).pending).any (fun e => e.requestId = rid) = true
      rw [List.any_cons]
      simp
    exact completes_writes_one es₂ _ rid hInv2 hpend hv3 hcomp
  · intro s r h
    simp only [serverStep]
    rw [if_neg (by rw [h]; exact Bool.false_ne_true)]

/-- Witness for C1 on a concrete trace: a dispatch whose timer fires twice
completes exactly once. -/
theorem pending_exactly_once_witness :
    writesFor (runFrom s0 [SEvent.dispatch "t" "r", SEvent.timerFire "r",
      SEvent.timerFire "r"]) "r" = 1 :=
  (pending_exactly_once
    [SEvent.dispatch "t" "r", SEvent.timerFire "r", SEvent.timerFire "r"]
    [] [SEvent.timerFire "r", SEvent.timerFire "r"] "t" "r"
    (by decide)).2.2.1 rfl (by decide)

/-- C2 (code-bug evidence): with request `r1` pending on tunnel `tA` and
request `r2` pending on tunnel `tB`, closing `tA`'s control socket also
fails `r2` with 504 `Tunnel disconnected` and empties the entire pending
map.  The close handler iterates every entry of `pendingResponses` — the
stored entries do not record which tunnel they belong to — even though its
own comment says it cleans up the pending responses "for this tunnel", so
pending requests of other tunnels are not left unchanged. -/
theorem close_fails_other_tunnels :
    (("r2", (504 : Int)) ∈
      (runFrom s0 [SEvent.dispatch "tA" "r1", SEvent.dispatch "tB" "r2",
        SEvent.socketClose "tA"]).written) ∧
    (runFrom s0 [SEvent.dispatch "tA" "r1", SEvent.dispatch "tB" "r2",
        SEvent.socketClose "tA"]).pending = [] := by
  decide

/-- C4: when the 30-second timer of a dispatched request fires with no
completion event for it having occurred in the interim (no matching
response frame, no teardown), the server writes status 504 for that
request and removes its entry from the pending map. -/
theorem timeout_504 (es₁ es₂ : List SEvent) (tid rid : String)
    (hv : validFrom s0 (es₁ ++ SEvent.dispatch tid rid ::
        (es₂ ++ [SEvent.timerFire rid])) = true)
    (hnc : es₂.any (completionFor rid) = false) :
    (rid, (504 : Int)) ∈ (runFrom s0 (es₁ ++ SEvent.dispatch tid rid ::
        (es₂ ++ [SEvent.timerFire rid]))).written ∧
    hasPending (runFrom s0 (es₁ ++ SEvent.dispatch tid rid ::
        (es₂ ++ [SEvent.timerFire rid]))) rid = false := by
  rw [runFrom_append]
  rw [validFrom_append, Bool.and_eq_true] at hv
  obtain ⟨hv1, hv2⟩ := hv
  have hv2' : (eventOk (runFrom s0 es₁) (SEvent.dispatch tid rid) &&
      validFrom (serverStep (runFrom s0 es₁) (SEvent.dispatch tid rid))
        (es₂ ++ [SEvent.timerFire rid])) = true := hv2
  rw [Bool.and_eq_true] at hv2'
  obtain ⟨hok, hv3⟩ := hv2'
  rw [validFrom_append, Bool.and_eq_true] at hv3
  obtain ⟨hv4, _⟩ := hv3
  have hInv1 : PendInv (runFrom s0 es₁) := pendInv_run es₁ s0 pendInv_s0 hv1
  have hInv2 : PendInv (serverStep (runFrom s0 es₁)
      (SEvent.dispatch tid rid)) := pendInv_step _ _ hInv1 hok
  have hpend2 : hasPending (serverStep (runFrom s0 es₁)
      (SEvent.dispatch tid rid)) rid = true := by
    show (({ requestId := rid, tunnelId := tid } : PendingEntry) ::
        (runFrom s0 es₁).pending).any (fun e => e.requestId = rid) = true
    rw [List.any_cons]
    simp
  obtain ⟨hpend3, _⟩ := pending_persists es₂ _ rid hInv2 hpend2 hv4 hnc
  have hfin : runFrom (runFrom s0 es₁) (SEvent.dispatch tid rid ::
      (es₂ ++ [SEvent.timerFire rid])) =
      serverStep (runFrom (serverStep (runFrom s0 es₁)
        (SEvent.dispatch tid rid)) es₂) (SEvent.timerFire rid) := by
    show runFrom (serverStep (runFrom s0 es₁) (SEvent.dispatch tid rid))
        (es₂ ++ [SEvent.timerFire rid]) = _
    rw [runFrom_append]
    rfl
  rw [hfin, serverStep_timer_pending _ rid hpend3]
  exact ⟨List.mem_cons_self _ _, any_filter_ne_self _ rid⟩

/-- Witness for C4 on the minimal trace: dispatch then timer expiry. -/
theorem timeout_504_witness :
    (("r", (504 : Int)) ∈
      (runFrom s0 [SEvent.dispatch "t" "r", SEvent.timerFire "r"]).written) ∧
    hasPending (runFrom s0 [SEvent.dispatch "t" "r", SEvent.timerFire "r"])
      "r" = false :=
  timeout_504 [] [] "t" "r" (by decide) rfl

end TunnelForge
